import Mathlib

/-!
Shallow embedding of the sorting and selection logic of the `DataTable`
component (src/components/ui/DataTable.tsx): the comparator used by
`sortedData`, the sort-cycle transition `handleSort`, the row-identity
resolver `getRowKey`, and the selection-set operations
`handleRowSelection` / `handleSelectAll`.

JavaScript cell values are modelled by the inductive `Value` (numbers as
integers); a row is an association list of field bindings, reading a
missing field gives `undefined` as in JS.  `Array.prototype.sort`, which
ES2019 requires to be stable, is modelled as `List.mergeSort` on the
`compare ≤ 0` relation, applied to a copy of the input list as in
`[...data].sort(...)`.
-/

/-- A JavaScript primitive cell value as it occurs in table rows: `null`,
`undefined` (also the result of reading an absent field), a string, a
number (modelled as an integer) or a boolean. -/
inductive Value where
  | vnull
  | vundefined
  | vstr (s : String)
  | vnum (n : Int)
  | vbool (b : Bool)
deriving DecidableEq, Repr

/-- JS loose equality against null: `x == null` holds exactly for `null`
and `undefined`. -/
def Value.isNullish : Value → Bool
  | .vnull => true
  | .vundefined => true
  | _ => false

/-- JS truthiness of the modelled values: `null`, `undefined`, the empty
string, the number 0 and `false` are falsy. -/
def Value.truthy : Value → Bool
  | .vnull => false
  | .vundefined => false
  | .vstr s => decide (s ≠ "")
  | .vnum n => decide (n ≠ 0)
  | .vbool b => b

/-- JS `String(v)` coercion of the modelled values. -/
def Value.toStr : Value → String
  | .vnull => "null"
  | .vundefined => "undefined"
  | .vstr s => s
  | .vnum n => toString n
  | .vbool true => "true"
  | .vbool false => "false"

/-- A table row: a record of field bindings.  Reading a field uses the
first binding with the given name. -/
structure Row where
  fields : List (String × Value)
deriving DecidableEq, Repr

/-- JS property read `row[key]`: `undefined` when the field is absent. -/
def Row.get (r : Row) (key : String) : Value :=
  match r.fields.find? (fun p => p.1 == key) with
  | some p => p.2
  | none => .vundefined

/-- Sort direction.  The source's `SortDirection` union also admits `null`,
but `handleSort` only ever stores `'asc'` or `'desc'`; the absent sort is
the `none` case of `Option SortConfig`, matching the source's
`useState<SortConfig<T> | null>(null)`. -/
inductive SortDirection where
  | asc
  | desc
deriving DecidableEq, Repr

/-- `SortConfig<T>`: the active sort key and direction. -/
structure SortConfig where
  key : String
  direction : SortDirection
deriving DecidableEq, Repr

/-- Column descriptor, restricted to the fields the core logic reads:
the column key and the `sortable` flag (`false` models an absent optional
flag, matching the `!column?.sortable` check). -/
structure Column where
  key : String
  sortable : Bool
deriving DecidableEq, Repr

/-- JS `String.prototype.localeCompare`, modelled as the sign of
lexicographic string comparison (V8 returns -1, 0 or 1). -/
def localeCompare (s t : String) : Int :=
  match compare s t with
  | .lt => -1
  | .eq => 0
  | .gt => 1

/-- The comparator body of `sortedData` (DataTable.tsx lines 58-76), as a
function of the two cell values `a[sortConfig.key]` and
`b[sortConfig.key]`:  strictly equal values compare as 0; a nullish value
sorts after anything else, before the direction is consulted; otherwise
two strings use `localeCompare`, two numbers use subtraction, and any
other combination compares the `String(...)` coercions; finally the
result is negated when the direction is descending. -/
def compareValues (aValue bValue : Value) (direction : SortDirection) : Int :=
  if aValue = bValue then 0
  else if aValue.isNullish then 1
  else if bValue.isNullish then -1
  else
    let comparison : Int :=
      match aValue, bValue with
      | .vstr s, .vstr t => localeCompare s t
      | .vnum m, .vnum n => m - n
      | x, y => localeCompare x.toStr y.toStr
    if direction = .desc then -comparison else comparison

/-- The row comparator passed to `Array.prototype.sort` by `sortedData`. -/
def compareRows (key : String) (direction : SortDirection) (a b : Row) : Int :=
  compareValues (a.get key) (b.get key) direction

/-- The `le` relation induced by the comparator, used to model the stable
JS sort as a merge sort. -/
def rowLE (key : String) (direction : SortDirection) (a b : Row) : Bool :=
  decide (compareRows key direction a b ≤ 0)

/-- `sortedData` (DataTable.tsx lines 55-78): the input list unchanged
when no sort is active, otherwise a stable sort of a copy of the input by
the comparator. -/
def sortedData (sortConfig : Option SortConfig) (data : List Row) : List Row :=
  match sortConfig with
  | none => data
  | some cfg => data.mergeSort (rowLE cfg.key cfg.direction)

/-- `handleSort` (DataTable.tsx lines 81-94): the transition of the sort
state on activating column `columnKey`.  A key that matches no column, or
a column without the `sortable` flag, leaves the state unchanged;
otherwise no sort or a different active key starts ascending, ascending
becomes descending, and descending resets to no sort. -/
def handleSort (columns : List Column) (columnKey : String)
    (current : Option SortConfig) : Option SortConfig :=
  match columns.find? (fun col => col.key == columnKey) with
  | none => current
  | some column =>
    if !column.sortable then current
    else
      match current with
      | none => some ⟨columnKey, .asc⟩
      | some cur =>
        if cur.key ≠ columnKey then some ⟨columnKey, .asc⟩
        else if cur.direction = .asc then some ⟨columnKey, .desc⟩
        else none

/-- The `rowKey` prop: either a field name or a function of
(row, position index). -/
inductive RowKeySpec where
  | field (name : String)
  | fn (f : Row → Nat → Value)

/-- `getRowKey` (DataTable.tsx lines 47-52): the identity key of a row at
a display position; for a field name it is `row[rowKey] || index`. -/
def getRowKey (rowKey : RowKeySpec) (row : Row) (index : Nat) : Value :=
  match rowKey with
  | .fn f => f row index
  | .field name =>
    let v := row.get name
    if v.truthy then v else .vnum (Int.ofNat index)

/-- The selection state: a JS `Set` of identity keys, kept in insertion
order. -/
abbrev SelSet := List Value

def SelSet.empty : SelSet := []

/-- JS `Set.has`. -/
def SelSet.has (s : SelSet) (k : Value) : Bool :=
  s.any (fun x => decide (x = k))

/-- JS `Set.add`: appends the key when not already present. -/
def SelSet.add (s : SelSet) (k : Value) : SelSet :=
  if SelSet.has s k then s else s ++ [k]

/-- JS `Set.delete`. -/
def SelSet.del (s : SelSet) (k : Value) : SelSet :=
  s.filter (fun x => decide (x ≠ k))

/-- JS `new Set(keys)`: sequential insertion of the listed keys. -/
def SelSet.ofList (ks : List Value) : SelSet :=
  ks.foldl SelSet.add SelSet.empty

/-- The payload of `onRowSelect` computed by `handleRowSelection`
(DataTable.tsx lines 107-109): the displayed rows, in display order,
whose identity key is in the selection set. -/
def selectedRowObjects (rowKey : RowKeySpec) (sel : SelSet)
    (rows : List Row) : List Row :=
  ((rows.enum).filter (fun p => SelSet.has sel (getRowKey rowKey p.2 p.1))).map
    (fun p => p.2)

/-- `handleRowSelection` (DataTable.tsx lines 97-111): add or remove one
identity key, returning the new selection set together with the
selected-row list passed to `onRowSelect`. -/
def handleRowSelection (rowKey : RowKeySpec) (displayed : List Row)
    (sel : SelSet) (key : Value) (checked : Bool) : SelSet × List Row :=
  let newSelectedRows := if checked then SelSet.add sel key else SelSet.del sel key
  (newSelectedRows, selectedRowObjects rowKey newSelectedRows displayed)

/-- `handleSelectAll` (DataTable.tsx lines 114-123): select every
currently displayed row, or clear the selection. -/
def handleSelectAll (rowKey : RowKeySpec) (displayed : List Row)
    (checked : Bool) : SelSet × List Row :=
  if checked then
    (SelSet.ofList ((displayed.enum).map (fun p => getRowKey rowKey p.2 p.1)),
     displayed)
  else (SelSet.empty, [])

/-! ### Sample rows and columns, used by witnesses and counterexamples -/

/-- Sample row from the spec scenario: `{id: 1, name: "Bob"}`. -/
def rowBob : Row := ⟨[("id", .vnum 1), ("name", .vstr "Bob")]⟩

/-- Sample row from the spec scenario: `{id: 2, name: "Amy"}`. -/
def rowAmy : Row := ⟨[("id", .vnum 2), ("name", .vstr "Amy")]⟩

/-- Sample row from the spec scenario: `{id: 3, name: "Cid"}`. -/
def rowCid : Row := ⟨[("id", .vnum 3), ("name", .vstr "Cid")]⟩

/-- The spec's sample data, in input order [Bob, Amy, Cid]. -/
def sampleData : List Row := [rowBob, rowAmy, rowCid]

/-- Two sortable columns, `id` and `name`. -/
def sampleColumns : List Column := [⟨"id", true⟩, ⟨"name", true⟩]

/-- A row whose `x` field is the number 5. -/
def rowFive : Row := ⟨[("x", .vnum 5)]⟩

/-- A row whose `x` field is the number 2. -/
def rowTwo : Row := ⟨[("x", .vnum 2)]⟩

/-- A row whose `x` field is the falsy number 0. -/
def rowZero : Row := ⟨[("x", .vnum 0)]⟩

/-- A row whose `x` field is explicitly `null`. -/
def rowNull : Row := ⟨[("x", .vnull)]⟩

/-! ### Helper lemmas -/

/-- `localeCompare` only returns -1, 0 or 1. -/
theorem localeCompare_cases (s t : String) :
    localeCompare s t = -1 ∨ localeCompare s t = 0 ∨ localeCompare s t = 1 := by
  unfold localeCompare
  cases compare s t <;> simp

/-- Negating (or not) a value in {-1, 0, 1} stays in {-1, 0, 1}. -/
theorem sign_if_mem (x : Int) (h : x = -1 ∨ x = 0 ∨ x = 1) (dir : SortDirection) :
    (if dir = SortDirection.desc then -x else x) = -1 ∨
    (if dir = SortDirection.desc then -x else x) = 0 ∨
    (if dir = SortDirection.desc then -x else x) = 1 := by
  cases dir <;> simp <;> omega

/-- When both values are present, unequal, and not both numbers, the
comparator reduces to `localeCompare` on string coercions, negated when
descending. -/
theorem compareValues_of_present (va vb : Value) (dir : SortDirection)
    (hvv : va ≠ vb) (hna : va.isNullish = false) (hnb : vb.isNullish = false)
    (hnum : ¬∃ m n : Int, va = .vnum m ∧ vb = .vnum n) :
    compareValues va vb dir =
      if dir = SortDirection.desc then -localeCompare va.toStr vb.toStr
      else localeCompare va.toStr vb.toStr := by
  rcases va with _ | _ | s | m | ba <;> rcases vb with _ | _ | t | n | bb <;>
    simp [Value.isNullish] at hna hnb <;>
    first
      | (simp [compareValues, Value.isNullish, Value.toStr, hvv]; done)
      | exact absurd ⟨m, n, rfl, rfl⟩ hnum

/-- Case analysis of the comparator's value: -1, 0 or 1 in every branch
except the two-numbers branch, which returns the (negated, when
descending) difference. -/
theorem compareValues_cases (va vb : Value) (dir : SortDirection) :
    (compareValues va vb dir = -1 ∨ compareValues va vb dir = 0 ∨
     compareValues va vb dir = 1)
    ∨ ∃ m n : Int, va = .vnum m ∧ vb = .vnum n ∧
        compareValues va vb dir =
          (if dir = SortDirection.desc then n - m else m - n) := by
  by_cases hvv : va = vb
  · exact Or.inl (Or.inr (Or.inl (by simp [compareValues, hvv])))
  · by_cases hna : va.isNullish
    · exact Or.inl (Or.inr (Or.inr (by simp [compareValues, hvv, hna])))
    · have hna' : va.isNullish = false := by
        cases h : va.isNullish
        · rfl
        · exact absurd h hna
      by_cases hnb : vb.isNullish
      · exact Or.inl (Or.inl (by simp [compareValues, hvv, hna', hnb]))
      · have hnb' : vb.isNullish = false := by
          cases h : vb.isNullish
          · rfl
          · exact absurd h hnb
        by_cases hnum : ∃ m n : Int, va = .vnum m ∧ vb = .vnum n
        · obtain ⟨m, n, rfl, rfl⟩ := hnum
          refine Or.inr ⟨m, n, rfl, rfl, ?_⟩
          simp only [compareValues, if_neg hvv]
          simp [Value.isNullish]
        · rw [compareValues_of_present va vb dir hvv hna' hnb' hnum]
          exact Or.inl (sign_if_mem _ (localeCompare_cases _ _) dir)

/-! ### C2: comparator range -/

/-- C2 (amended): the comparator returns -1, 0 or 1 in every case except
when both values at the sort key are numbers, where it returns the
numeric difference `a - b` (negated when descending), whose sign — not
its value — conveys the ordering. -/
theorem comparator_range (a b : Row) (key : String) (dir : SortDirection) :
    (compareRows key dir a b = -1 ∨ compareRows key dir a b = 0 ∨
     compareRows key dir a b = 1)
    ∨ ∃ m n : Int, Row.get a key = .vnum m ∧ Row.get b key = .vnum n ∧
        compareRows key dir a b =
          (if dir = SortDirection.desc then n - m else m - n) :=
  compareValues_cases (Row.get a key) (Row.get b key) dir

/-- C2 counterexample: on rows with numeric values 5 and 2 at the sort
key, the comparator returns 3, which is not in {-1, 0, 1}. -/
theorem comparator_range_cex :
    compareRows "x" SortDirection.asc rowFive rowTwo = 3 ∧
    ¬(compareRows "x" SortDirection.asc rowFive rowTwo = -1 ∨
      compareRows "x" SortDirection.asc rowFive rowTwo = 0 ∨
      compareRows "x" SortDirection.asc rowFive rowTwo = 1) := by decide

/-! ### C3: nulls-last is direction-invariant -/

/-- C3: when exactly one of the two values at the sort key is
null/absent, the comparator puts the absent value after the present one
(returns 1 with the absent value first, -1 the other way) under both
directions; and the descending negation applies exactly to pairs where
both values are present. -/
theorem nulls_last_direction_invariant (a b : Row) (key : String) :
    ((Row.get a key).isNullish = true → (Row.get b key).isNullish = false →
      ∀ dir : SortDirection,
        compareRows key dir a b = 1 ∧ compareRows key dir b a = -1)
    ∧ ((Row.get a key).isNullish = false → (Row.get b key).isNullish = false →
      compareRows key SortDirection.desc a b
        = - compareRows key SortDirection.asc a b) := by
  constructor
  · intro ha hb dir
    have hne : Row.get a key ≠ Row.get b key := by
      intro h
      rw [h] at ha
      rw [ha] at hb
      exact Bool.noConfusion hb
    constructor
    · unfold compareRows compareValues
      rw [if_neg hne]
      simp [ha]
    · have hne2 : Row.get b key ≠ Row.get a key := fun h => hne h.symm
      unfold compareRows compareValues
      rw [if_neg hne2]
      simp [ha, hb]
  · intro ha hb
    by_cases hvv : Row.get a key = Row.get b key
    · unfold compareRows compareValues
      rw [if_pos hvv, if_pos hvv]
      simp
    · unfold compareRows compareValues
      rw [if_neg hvv, if_neg hvv]
      simp [ha, hb]

/-- Witness for C3 at concrete rows: a null value loses to a present one
under descending direction as well, and for two present values the
descending result is the negated ascending result. -/
theorem nulls_last_direction_invariant_witness :
    (compareRows "x" SortDirection.desc rowNull rowTwo = 1 ∧
     compareRows "x" SortDirection.desc rowTwo rowNull = -1) ∧
    compareRows "x" SortDirection.desc rowFive rowTwo
      = - compareRows "x" SortDirection.asc rowFive rowTwo :=
  ⟨(nulls_last_direction_invariant rowNull rowTwo "x").1 (by decide) (by decide)
      SortDirection.desc,
   (nulls_last_direction_invariant rowFive rowTwo "x").2 (by decide) (by decide)⟩

/-! ### C8: row identity resolution -/

/-- C8: with a field-name `rowKey`, the identity key is the field's value
when truthy and the position index otherwise; with a function `rowKey`,
the function's result on (row, index) is used verbatim. -/
theorem row_identity_resolution :
    (∀ (name : String) (row : Row) (i : Nat),
        (Row.get row name).truthy = true →
        getRowKey (RowKeySpec.field name) row i = Row.get row name)
    ∧ (∀ (name : String) (row : Row) (i : Nat),
        (Row.get row name).truthy = false →
        getRowKey (RowKeySpec.field name) row i = Value.vnum (Int.ofNat i))
    ∧ (∀ (f : Row → Nat → Value) (row : Row) (i : Nat),
        getRowKey (RowKeySpec.fn f) row i = f row i) := by
  refine ⟨?_, ?_, ?_⟩ <;> intros <;> simp [getRowKey, *]

/-- Witness for C8 at concrete inputs: a truthy field value is used, a
falsy one falls back to the index, a function result is used verbatim. -/
theorem row_identity_resolution_witness :
    getRowKey (RowKeySpec.field "x") rowFive 7 = Row.get rowFive "x" ∧
    getRowKey (RowKeySpec.field "x") rowZero 7 = Value.vnum (Int.ofNat 7) ∧
    getRowKey (RowKeySpec.fn (fun _ i => Value.vnum (Int.ofNat i))) rowFive 7
      = (fun (_ : Row) (i : Nat) => Value.vnum (Int.ofNat i)) rowFive 7 :=
  ⟨row_identity_resolution.1 "x" rowFive 7 (by decide),
   row_identity_resolution.2.1 "x" rowZero 7 (by decide),
   row_identity_resolution.2.2 _ rowFive 7⟩

/-! ### C9: non-sortable activation is a silent no-op -/

/-- C9: activating a column key that matches no column, or whose column
is not sortable, leaves the sort state and the displayed order
unchanged (and, being a total function, raises nothing). -/
theorem nonsortable_activation_noop (cols : List Column) (key : String)
    (s : Option SortConfig) (data : List Row)
    (h : ∀ col, cols.find? (fun c => c.key == key) = some col →
      col.sortable = false) :
    handleSort cols key s = s ∧
    sortedData (handleSort cols key s) data = sortedData s data := by
  have hstate : handleSort cols key s = s := by
    unfold handleSort
    cases hf : cols.find? (fun c => c.key == key) with
    | none => rfl
    | some col => simp [h col hf]
  exact ⟨hstate, by rw [hstate]⟩

/-- A single non-sortable `name` column. -/
def nonsortableColumns : List Column := [⟨"name", false⟩]

/-- Witness for C9: activating the non-sortable `name` column changes
neither the sort state nor the displayed rows. -/
theorem nonsortable_activation_noop_witness :
    handleSort nonsortableColumns "name" (some ⟨"id", SortDirection.asc⟩)
      = some ⟨"id", SortDirection.asc⟩ ∧
    sortedData (handleSort nonsortableColumns "name"
        (some ⟨"id", SortDirection.asc⟩)) sampleData
      = sortedData (some ⟨"id", SortDirection.asc⟩) sampleData :=
  nonsortable_activation_noop nonsortableColumns "name"
    (some ⟨"id", SortDirection.asc⟩) sampleData
    (by
      intro col hcol
      rw [show nonsortableColumns.find? (fun c => c.key == "name")
          = some ⟨"name", false⟩ from rfl] at hcol
      injection hcol with h2
      rw [← h2])

/-! ### C10: the displayed rows are a permutation of the input -/

/-- C10: for every sort configuration (including no sort), the displayed
row list is a permutation of the input list — sorting never drops,
duplicates or fabricates rows; the model operates on a copy, matching
the source's `[...data].sort`. -/
theorem sortedData_is_permutation (cfg : Option SortConfig) (data : List Row) :
    (sortedData cfg data).Perm data := by
  cases cfg with
  | none => exact List.Perm.refl data
  | some c => exact List.mergeSort_perm data _

/-! ### C4: sort-direction cycling -/

/-- C4 counterexample: starting from `Ascending("name")` — a state in
which the activated column is the active sort key, which the claim
admits — three activations of `name` land on `Ascending("name")` again,
not on the unsorted state. -/
theorem sort_cycle_cex :
    handleSort sampleColumns "name" (handleSort sampleColumns "name"
        (handleSort sampleColumns "name" (some ⟨"name", SortDirection.asc⟩)))
      = some ⟨"name", SortDirection.asc⟩ ∧
    (some ⟨"name", SortDirection.asc⟩ : Option SortConfig) ≠ none := by decide

/-- C4 (amended): three consecutive activations of a sortable column,
starting from no sort or from a state whose active key is a *different*
column, pass through Ascending, Descending and back to no sort, after
which the displayed order is the input order again; a fourth activation
restarts the cycle at Ascending. -/
theorem sort_cycle_amended (cols : List Column) (key : String)
    (data : List Row) (start : Option SortConfig) (col : Column)
    (hfind : cols.find? (fun c => c.key == key) = some col)
    (hsortable : col.sortable = true)
    (hstart : ∀ cfg, start = some cfg → cfg.key ≠ key) :
    handleSort cols key start = some ⟨key, SortDirection.asc⟩ ∧
    handleSort cols key (handleSort cols key start)
      = some ⟨key, SortDirection.desc⟩ ∧
    handleSort cols key (handleSort cols key (handleSort cols key start))
      = none ∧
    sortedData (handleSort cols key (handleSort cols key
      (handleSort cols key start))) data = data ∧
    handleSort cols key (handleSort cols key (handleSort cols key
      (handleSort cols key start))) = some ⟨key, SortDirection.asc⟩ := by
  have h1 : handleSort cols key start = some ⟨key, SortDirection.asc⟩ := by
    unfold handleSort
    rw [hfind]
    cases start with
    | none => simp [hsortable]
    | some cfg => simp [hsortable, hstart cfg rfl]
  have h2 : handleSort cols key (some ⟨key, SortDirection.asc⟩)
      = some ⟨key, SortDirection.desc⟩ := by
    unfold handleSort
    rw [hfind]
    simp [hsortable]
  have h3 : handleSort cols key (some ⟨key, SortDirection.desc⟩) = none := by
    unfold handleSort
    rw [hfind]
    simp [hsortable]
  have h0 : handleSort cols key none = some ⟨key, SortDirection.asc⟩ := by
    unfold handleSort
    rw [hfind]
    simp [hsortable]
  refine ⟨h1, ?_, ?_, ?_, ?_⟩
  · rw [h1]; exact h2
  · rw [h1, h2]; exact h3
  · rw [h1, h2, h3]; rfl
  · rw [h1, h2, h3]; exact h0

/-- Witness for the amended C4: on the spec's sample data with the
sortable `name` column, starting unsorted, the three activations cycle
Ascending, Descending, Unsorted (restoring the input order) and the
fourth starts Ascending again. -/
theorem sort_cycle_amended_witness :
    handleSort sampleColumns "name" none = some ⟨"name", SortDirection.asc⟩ ∧
    handleSort sampleColumns "name" (handleSort sampleColumns "name" none)
      = some ⟨"name", SortDirection.desc⟩ ∧
    handleSort sampleColumns "name" (handleSort sampleColumns "name"
      (handleSort sampleColumns "name" none)) = none ∧
    sortedData (handleSort sampleColumns "name" (handleSort sampleColumns "name"
      (handleSort sampleColumns "name" none))) sampleData = sampleData ∧
    handleSort sampleColumns "name" (handleSort sampleColumns "name"
      (handleSort sampleColumns "name" (handleSort sampleColumns "name" none)))
      = some ⟨"name", SortDirection.asc⟩ :=
  sort_cycle_amended sampleColumns "name" sampleData none ⟨"name", true⟩
    (by decide) rfl (by intro cfg h; exact Option.noConfusion h)

/-! ### C5: activating a different column -/

/-- C5 counterexample: from the cycled state `Ascending("id")`,
activating the different sortable column `name` yields
`Ascending("name")`, not the "no sort" state the claim requires. -/
theorem switch_column_cex :
    handleSort sampleColumns "name" (some ⟨"id", SortDirection.asc⟩)
      = some ⟨"name", SortDirection.asc⟩ ∧
    (some ⟨"name", SortDirection.asc⟩ : Option SortConfig) ≠ none := by decide

/-- C5 (amended): activating a different sortable column from a cycled
state discards the previous column's SortConfig and restarts the cycle
directly at Ascending(new column); "no sort" is never an intermediate
observable state of this transition. -/
theorem switch_column_restarts_ascending (cols : List Column)
    (key prevKey : String) (dir : SortDirection) (col : Column)
    (hfind : cols.find? (fun c => c.key == key) = some col)
    (hsortable : col.sortable = true)
    (hne : prevKey ≠ key) :
    handleSort cols key (some ⟨prevKey, dir⟩) = some ⟨key, SortDirection.asc⟩ := by
  unfold handleSort
  rw [hfind]
  simp [hsortable, hne]

/-- Witness for the amended C5: switching from `Ascending("id")` to the
`name` column restarts at `Ascending("name")`. -/
theorem switch_column_restarts_ascending_witness :
    handleSort sampleColumns "name" (some ⟨"id", SortDirection.asc⟩)
      = some ⟨"name", SortDirection.asc⟩ :=
  switch_column_restarts_ascending sampleColumns "name" "id"
    SortDirection.asc ⟨"name", true⟩ (by decide) rfl (by decide)

/-! ### Selection-set lemmas -/

/-- Membership after `Set.add`. -/
theorem selSet_has_add (s : SelSet) (a k : Value) :
    SelSet.has (SelSet.add s a) k = (SelSet.has s k || decide (a = k)) := by
  unfold SelSet.add
  by_cases h : SelSet.has s a
  · rw [if_pos h]
    by_cases hak : a = k
    · subst hak
      simp [h]
    · simp [hak]
  · rw [if_neg h]
    unfold SelSet.has
    simp [List.any_append]

/-- Membership after folding `Set.add` over a key list. -/
theorem selSet_has_foldl (ks : List Value) (s : SelSet) (k : Value) :
    SelSet.has (ks.foldl SelSet.add s) k
      = (SelSet.has s k || ks.any (fun x => decide (x = k))) := by
  induction ks generalizing s with
  | nil => simp
  | cons a t ih => simp [List.foldl_cons, ih, selSet_has_add, Bool.or_assoc]

/-- Membership in `new Set(keys)` is membership in the key list. -/
theorem selSet_has_ofList (ks : List Value) (k : Value) :
    SelSet.has (SelSet.ofList ks) k = ks.any (fun x => decide (x = k)) := by
  unfold SelSet.ofList
  rw [selSet_has_foldl]
  simp [SelSet.empty, SelSet.has]

/-- When every displayed row's key is selected, `selectedRowObjects`
returns the displayed rows unchanged. -/
theorem selectedRowObjects_all (rk : RowKeySpec) (sel : SelSet)
    (rows : List Row)
    (h : ∀ p ∈ rows.enum, SelSet.has sel (getRowKey rk p.2 p.1) = true) :
    selectedRowObjects rk sel rows = rows := by
  unfold selectedRowObjects
  rw [List.filter_eq_self.mpr h]
  exact List.enumFrom_map_snd 0 rows

/-- A selected row stays in `selectedRowObjects` of any list containing
it, provided its key is selected at every position. -/
theorem mem_selectedRowObjects_enumFrom (rk : RowKeySpec) (sel : SelSet)
    (row : Row) (hkey : ∀ i, SelSet.has sel (getRowKey rk row i) = true) :
    ∀ (rows : List Row) (n : Nat), row ∈ rows →
      row ∈ ((rows.enumFrom n).filter
        (fun p => SelSet.has sel (getRowKey rk p.2 p.1))).map (fun p => p.2) := by
  intro rows
  induction rows with
  | nil => intro n h; exact absurd h (List.not_mem_nil row)
  | cons a t ih =>
    intro n h
    rcases List.mem_cons.mp h with rfl | ht
    · simp [List.enumFrom_cons, List.filter_cons, hkey n]
    · simp only [List.enumFrom_cons, List.filter_cons]
      split
      · simp only [List.map_cons, List.mem_cons]
        exact Or.inr (ih (n + 1) ht)
      · exact ih (n + 1) ht

/-- Instance of the previous lemma at the head position of `enum`. -/
theorem mem_selectedRowObjects (rk : RowKeySpec) (sel : SelSet)
    (rows : List Row) (row : Row) (hmem : row ∈ rows)
    (hkey : ∀ i, SelSet.has sel (getRowKey rk row i) = true) :
    row ∈ selectedRowObjects rk sel rows :=
  mem_selectedRowObjects_enumFrom rk sel row hkey rows 0 hmem

/-- Sorting does not change row membership. -/
theorem mem_sortedData {row : Row} (cfg : Option SortConfig)
    (data : List Row) : row ∈ sortedData cfg data ↔ row ∈ data := by
  cases cfg with
  | none => exact Iff.rfl
  | some c => exact List.mem_mergeSort

/-! ### C7: clearAll / selectAll / selectedRows round-trip -/

/-- C7: after clearing, selecting all over the displayed (post-sort)
rows sets the selection to exactly the identity keys of those rows, the
`onRowSelect` payload is the displayed list itself, and resolving the
selected rows over the same displayed list returns it unchanged, in
display order. -/
theorem select_all_round_trip (rk : RowKeySpec) (displayed : List Row)
    (hne : displayed ≠ []) :
    (handleSelectAll rk displayed false).1 = SelSet.empty ∧
    (handleSelectAll rk displayed true).2 = displayed ∧
    selectedRowObjects rk (handleSelectAll rk displayed true).1 displayed
      = displayed ∧
    (∀ k : Value, SelSet.has (handleSelectAll rk displayed true).1 k = true ↔
      k ∈ (displayed.enum).map (fun p => getRowKey rk p.2 p.1)) := by
  refine ⟨rfl, rfl, ?_, ?_⟩
  · apply selectedRowObjects_all
    intro p hp
    rw [show (handleSelectAll rk displayed true).1
        = SelSet.ofList ((displayed.enum).map
            (fun q => getRowKey rk q.2 q.1)) from rfl]
    rw [selSet_has_ofList, List.any_eq_true]
    exact ⟨getRowKey rk p.2 p.1, List.mem_map.mpr ⟨p, hp, rfl⟩, by simp⟩
  · intro k
    rw [show (handleSelectAll rk displayed true).1
        = SelSet.ofList ((displayed.enum).map
            (fun q => getRowKey rk q.2 q.1)) from rfl]
    rw [selSet_has_ofList, List.any_eq_true]
    constructor
    · rintro ⟨x, hx, hxk⟩
      simp only [decide_eq_true_eq] at hxk
      exact hxk ▸ hx
    · intro hk
      exact ⟨k, hk, by simp⟩

/-- Witness for C7 on the spec's sample data with `rowKey = "id"`. -/
theorem select_all_round_trip_witness :
    (handleSelectAll (RowKeySpec.field "id") sampleData false).1
      = SelSet.empty ∧
    (handleSelectAll (RowKeySpec.field "id") sampleData true).2 = sampleData ∧
    selectedRowObjects (RowKeySpec.field "id")
      (handleSelectAll (RowKeySpec.field "id") sampleData true).1 sampleData
      = sampleData ∧
    (SelSet.has (handleSelectAll (RowKeySpec.field "id") sampleData true).1
        (Value.vnum 2) = true ↔
      Value.vnum 2 ∈ (sampleData.enum).map
        (fun p => getRowKey (RowKeySpec.field "id") p.2 p.1)) :=
  ⟨(select_all_round_trip (RowKeySpec.field "id") sampleData (by decide)).1,
   (select_all_round_trip (RowKeySpec.field "id") sampleData (by decide)).2.1,
   (select_all_round_trip (RowKeySpec.field "id") sampleData (by decide)).2.2.1,
   (select_all_round_trip (RowKeySpec.field "id") sampleData
     (by decide)).2.2.2 (Value.vnum 2)⟩

/-! ### C1: selection survives re-sorting -/

/-- C1: once a row's identity key (derived from a truthy row field, hence
independent of display position) is added to the selection via the
row-toggle, any later sort activation still reports the row as selected:
its key stays in the set and the row is in `selectedRowObjects` of the
newly displayed list. -/
theorem selection_survives_resort (name : String) (data : List Row)
    (row : Row) (sel : SelSet) (cols : List Column) (activatedKey : String)
    (cfg : Option SortConfig)
    (htruthy : (Row.get row name).truthy = true)
    (hmem : row ∈ data) :
    SelSet.has (handleRowSelection (RowKeySpec.field name)
        (sortedData cfg data) sel (Row.get row name) true).1
      (Row.get row name) = true ∧
    row ∈ selectedRowObjects (RowKeySpec.field name)
      (handleRowSelection (RowKeySpec.field name) (sortedData cfg data) sel
        (Row.get row name) true).1
      (sortedData (handleSort cols activatedKey cfg) data) := by
  have hfst : (handleRowSelection (RowKeySpec.field name) (sortedData cfg data)
      sel (Row.get row name) true).1 = SelSet.add sel (Row.get row name) := rfl
  have hhas : SelSet.has (SelSet.add sel (Row.get row name))
      (Row.get row name) = true := by
    rw [selSet_has_add]
    simp
  have hkey : ∀ i, getRowKey (RowKeySpec.field name) row i
      = Row.get row name := by
    intro i
    simp [getRowKey, htruthy]
  rw [hfst]
  refine ⟨hhas, ?_⟩
  apply mem_selectedRowObjects
  · exact (mem_sortedData _ _).mpr hmem
  · intro i
    rw [hkey i]
    exact hhas

/-- Witness for C1, the spec's scenario: select Amy by `id`, then
activate the `name` column; Amy is still selected. -/
theorem selection_survives_resort_witness :
    SelSet.has (handleRowSelection (RowKeySpec.field "id")
        (sortedData none sampleData) SelSet.empty (Row.get rowAmy "id") true).1
      (Row.get rowAmy "id") = true ∧
    rowAmy ∈ selectedRowObjects (RowKeySpec.field "id")
      (handleRowSelection (RowKeySpec.field "id") (sortedData none sampleData)
        SelSet.empty (Row.get rowAmy "id") true).1
      (sortedData (handleSort sampleColumns "name" none) sampleData) :=
  selection_survives_resort "id" sampleData rowAmy SelSet.empty sampleColumns
    "name" none (by decide) (by decide)

/-! ### C6: stability of the sort -/

/-- A row whose `v` field is explicitly `null` (id 1). -/
def rowNullA : Row := ⟨[("id", .vnum 1), ("v", .vnull)]⟩

/-- A row with no `v` field at all, so reading `v` gives `undefined`. -/
def rowMissing : Row := ⟨[("id", .vnum 2)]⟩

/-- A second row whose `v` field is explicitly `null` (id 3). -/
def rowNullB : Row := ⟨[("id", .vnum 3), ("v", .vnull)]⟩

/-- Input order: null row (id 1), missing-field row (id 2), null row (id 3). -/
def mixedNullData : List Row := [rowNullA, rowMissing, rowNullB]

/-- C6 counterexample: the two rows with `null` at the sort key compare
equal, and appear as the pair [id 1, id 3] in the input, yet the sorted
output is [id 3, id 2, id 1] — their relative order is flipped.  The
comparator is not a consistent comparison function here (`null` vs
`undefined` returns 1 in both argument orders), so even a stable
merge sort reorders the equal pair. -/
theorem stable_sort_cex :
    compareRows "v" SortDirection.asc rowNullA rowNullB = 0 ∧
    List.Sublist [rowNullA, rowNullB] mixedNullData ∧
    sortedData (some ⟨"v", SortDirection.asc⟩) mixedNullData
      = [rowNullB, rowMissing, rowNullA] ∧
    ¬ List.Sublist [rowNullA, rowNullB]
        (sortedData (some ⟨"v", SortDirection.asc⟩) mixedNullData) := by
  have hAM : rowLE "v" SortDirection.asc rowNullA rowMissing = false := by decide
  have hMB : rowLE "v" SortDirection.asc rowMissing rowNullB = false := by decide
  have hsorted : sortedData (some ⟨"v", SortDirection.asc⟩) mixedNullData
      = [rowNullB, rowMissing, rowNullA] := by
    show mixedNullData.mergeSort (rowLE "v" SortDirection.asc)
      = [rowNullB, rowMissing, rowNullA]
    simp [mixedNullData, List.mergeSort, hAM, hMB]
  refine ⟨by decide, by decide, hsorted, ?_⟩
  rw [hsorted]
  decide

/-- C6 (amended): the sort is stable whenever the comparator's `≤ 0`
relation is transitive and total on the rows being sorted (a consistent
comparison function in the ES sense): any pair of rows comparing equal
keeps its input order in the output.  When both `null` and `undefined`
(or inconsistently mixed types) occur at the sort key the relation is
not total and stability can fail, as `stable_sort_cex` shows. -/
theorem stable_sort_amended (key : String) (dir : SortDirection)
    (data : List Row) (a b : Row)
    (htrans : ∀ x y z, x ∈ data → y ∈ data → z ∈ data →
      rowLE key dir x y = true → rowLE key dir y z = true →
      rowLE key dir x z = true)
    (htotal : ∀ x y, x ∈ data → y ∈ data →
      (rowLE key dir x y || rowLE key dir y x) = true)
    (heq : compareRows key dir a b = 0)
    (hsub : List.Sublist [a, b] data) :
    List.Sublist [a, b] (sortedData (some ⟨key, dir⟩) data) := by
  have hsub' : List.Sublist [a, b] (data.attach.map Subtype.val) := by
    rw [List.attach_map_subtype_val]
    exact hsub
  obtain ⟨c, hc, hmap⟩ := List.sublist_map_iff.mp hsub'
  rcases c with _ | ⟨x, _ | ⟨y, _ | ⟨z, c⟩⟩⟩
  · simp at hmap
  · simp at hmap
  · obtain ⟨ha, hb⟩ : a = x.1 ∧ b = y.1 := by simpa using hmap
    have hxy : rowLE key dir x.1 y.1 = true := by
      rw [← ha, ← hb]
      simp [rowLE, heq]
    have hpair : List.Pairwise
        (fun u v : {r // r ∈ data} => rowLE key dir u.1 v.1 = true) [x, y] :=
      List.pairwise_pair.mpr hxy
    have hstable : List.Sublist [x, y]
        (data.attach.mergeSort
          (fun u v : {r // r ∈ data} => rowLE key dir u.1 v.1)) :=
      List.sublist_mergeSort
        (fun u v w h1 h2 => htrans u.1 v.1 w.1 u.2 v.2 w.2 h1 h2)
        (fun u v => htotal u.1 v.1 u.2 v.2)
        hpair hc
    have hmapped := hstable.map Subtype.val
    have hcomm : ((data.attach.mergeSort
          (fun u v : {r // r ∈ data} => rowLE key dir u.1 v.1)).map
            Subtype.val)
        = (data.attach.map Subtype.val).mergeSort (rowLE key dir) :=
      List.map_mergeSort (fun u _ v _ => rfl)
    rw [hcomm, List.attach_map_subtype_val] at hmapped
    show List.Sublist [a, b] (data.mergeSort (rowLE key dir))
    rw [ha, hb]
    simpa using hmapped
  · simp at hmap

/-- A row with numeric value 7 at `x` (id 1). -/
def rowSeven : Row := ⟨[("id", .vnum 1), ("x", .vnum 7)]⟩

/-- A second row with numeric value 7 at `x` (id 2). -/
def rowSevenB : Row := ⟨[("id", .vnum 2), ("x", .vnum 7)]⟩

/-- Witness for the amended C6: two distinct rows with equal numeric sort
keys keep their input order after an ascending sort. -/
theorem stable_sort_amended_witness :
    List.Sublist [rowSeven, rowSevenB]
      (sortedData (some ⟨"x", SortDirection.asc⟩) [rowSeven, rowSevenB]) :=
  stable_sort_amended "x" SortDirection.asc [rowSeven, rowSevenB]
    rowSeven rowSevenB
    (by
      intro x y z hx hy hz
      fin_cases hx <;> fin_cases hy <;> fin_cases hz <;> decide)
    (by
      intro x y hx hy
      fin_cases hx <;> fin_cases hy <;> decide)
    (by decide)
    (by decide)
